import Mathlib

/-!
Verification of the advanced video concatenation endpoint
(`src/routes/v1/video/concatenate_advanced.py`, function
`concatenate_advanced_api`) against its natural-language specification.

The handler is embedded as a pure Lean function over:
* a JSON value model (`Json`) for the request body,
* a filesystem model (`FS`, the list of existing local paths),
* an environment `Env` of external collaborators (Fetcher = `download_file`,
  Tool Runner = `subprocess.run` of ffmpeg, Publisher = `upload_file`),
* an event trace recording every external call the handler makes,

and theorems are proved about that embedding.
-/

namespace ConcatAdvanced

/-- A JSON value as parsed by `request.get_json()`.  Numbers are modelled as
integers (no claim involves fractional numeric payload values). -/
inductive Json where
  | null : Json
  | bool (b : Bool) : Json
  | num (n : Int) : Json
  | str (s : String) : Json
  | arr (elems : List Json) : Json
  | obj (fields : List (String × Json)) : Json
deriving Repr

/-- Python truthiness (`not x`): `None`, `False`, `0`, `""`, `[]`, `{}` are
falsy, everything else truthy. -/
def Json.falsy : Json → Bool
  | .null => true
  | .bool b => !b
  | .num n => n == 0
  | .str s => s == ""
  | .arr elems => elems.isEmpty
  | .obj fields => fields.isEmpty

/-- Python `dict.get(key)` on the parsed JSON object: the first binding of
`key`, or `none` when the key is absent (Python returns the supplied default
only on an absent key, not on a stored `None`). -/
def assocGet (fields : List (String × Json)) (key : String) : Option Json :=
  match fields with
  | [] => none
  | (k, v) :: rest => if k == key then some v else assocGet rest key

mutual
/-- Python `repr` of a JSON-derived value, as used for elements when a
container is interpolated into an f-string. -/
def pyRepr : Json → String
  | .null => "None"
  | .bool true => "True"
  | .bool false => "False"
  | .num n => toString n
  | .str s => "\x27" ++ s ++ "\x27"
  | .arr elems => "[" ++ pyReprElems elems ++ "]"
  | .obj fields => "\x7b" ++ pyReprFields fields ++ "\x7d"

/-- Comma-separated `repr`s of list elements. -/
def pyReprElems : List Json → String
  | [] => ""
  | [x] => pyRepr x
  | x :: y :: rest => pyRepr x ++ ", " ++ pyReprElems (y :: rest)

/-- Comma-separated `repr`s of dict entries. -/
def pyReprFields : List (String × Json) → String
  | [] => ""
  | [(k, v)] => "\x27" ++ k ++ "\x27: " ++ pyRepr v
  | (k, v) :: e :: rest =>
      "\x27" ++ k ++ "\x27: " ++ pyRepr v ++ ", " ++ pyReprFields (e :: rest)
end

/-- Python `str` of a JSON-derived value, as used by f-string interpolation
(`f"{job_id_param}..."`, `f"...: {url}"`).  `str` differs from `repr` only on
strings themselves (no quotes). -/
def pyStr : Json → String
  | .str s => s
  | j => pyRepr j

example : pyStr (.str "http://a/x.mp4") = "http://a/x.mp4" := rfl
example : pyStr (.num 7) = "7" := rfl
example : pyStr .null = "None" := rfl
example : pyStr (.arr [.num 1, .str "a"]) = "[1, \x27a\x27]" := rfl

/-! ## Filesystem model

The local filesystem visible to the handler: the list of paths that currently
exist.  `os.path.exists` is membership, `os.remove` deletes the path (and
raises `FileNotFoundError` when the path does not exist), and writing a file
conses its path on. -/

/-- The set of existing local file paths. -/
abbrev FS := List String

/-- `os.path.exists(p)`. -/
def osPathExists (p : String) (fs : FS) : Bool := fs.contains p

/-- `os.remove(p)`: deletes the file, raising when it does not exist. -/
def osRemove (p : String) (fs : FS) : Except String FS :=
  if osPathExists p fs then .ok (fs.filter (fun q => q != p))
  else .error "FileNotFoundError"

/-- One guarded removal, `if os.path.exists(p): os.remove(p)`, in the fallible
filesystem model (lines 127, 129, 145, 147 of the source). -/
def guardedRemove (p : String) (fs : FS) : Except String FS :=
  if osPathExists p fs then osRemove p fs else .ok fs

/-- The cleanup loop `for p in paths: if os.path.exists(p): os.remove(p)` in
the fallible filesystem model. -/
def cleanupE (paths : List String) (fs : FS) : Except String FS :=
  match paths with
  | [] => .ok fs
  | p :: rest =>
    match guardedRemove p fs with
    | .ok fs1 => cleanupE rest fs1
    | .error e => .error e

/-- One guarded removal as a total state transformer (the guard makes the
fallible `os.remove` total; `removeIfExists_eq_guardedRemove` below relates
the two). -/
def removeIfExists (p : String) (fs : FS) : FS :=
  if osPathExists p fs then fs.filter (fun q => q != p) else fs

/-- The cleanup loop as a total state transformer. -/
def cleanupFS (paths : List String) (fs : FS) : FS :=
  match paths with
  | [] => fs
  | p :: rest => cleanupFS rest (removeIfExists p fs)

/-! ## External collaborators and observable behaviour -/

/-- The external collaborators of the handler.

* `fetch` models `download_file(url, LOCAL_STORAGE_PATH)` from
  `services.file_management` (not part of the verified source): an arbitrary
  function of its call-site arguments — the url element (any JSON value) — to
  either the created local path or a raised-exception message.  Note the call
  site passes no job identifier, so `fetch` cannot depend on one.
* `toolOk`, `toolStderr`, `toolCreates` model
  `subprocess.run(command, check=True, capture_output=True, text=True)`:
  whether the process exits 0, its captured standard error, and the files it
  writes (ffmpeg may write a partial output even when it then fails).
* `upload` models `upload_file(path)` from `services.cloud_storage`: the
  returned remote URL, or a raised-exception message. -/
structure Env where
  fetch : Json → Except String String
  toolOk : List String → Bool
  toolStderr : List String → String
  toolCreates : List String → List String
  upload : String → Except String String

/-- One external call made by the handler, recorded in request order. -/
inductive Event where
  | fetch (url : Json) (result : Except String String) : Event
  | run (argv : List String) : Event
  | upload (path : String) (result : Except String String) : Event

/-- An HTTP response produced by `jsonify(...), status`. -/
structure Response where
  status : Nat
  body : Json

/-- What the view function does with a request: either it returns a response,
or an exception escapes it.  The only escape is line 53
(`request.json.get('job_id', ...)`), which runs before the `try:` block:
`request.json` raises for an unparseable/absent body, and returns `None` for
the JSON body `null`, making `.get` raise `AttributeError` (likewise for any
non-object JSON body, which has no `.get`). -/
inductive Outcome where
  | response (r : Response) : Outcome
  | raisedBeforeTry (exc : String) : Outcome

/-- Modelled from the spec: the scratch directory root, the configuration
value `LOCAL_STORAGE_PATH` imported from `config` (not part of the verified
source).  Its concrete value is immaterial to every claim. -/
def LOCAL_STORAGE_PATH : String := "/tmp"

/-- `os.path.join(root, name)` for an absolute root without a trailing
slash (POSIX semantics): when the second component is itself absolute
(starts with `/`, i.e. its first character is `/`) the root is discarded
and the second component is returned; otherwise the components are joined
with a single separator. -/
def osPathJoin (root name : String) : String :=
  if name.data.head? = some '/' then name
  else root ++ "/" ++ name

/-- Result of the download loop (lines 70–82). -/
inductive DlResult where
  | ok (paths : List String) : DlResult
  | fail (url : Json) (cause : String) (downloaded : List String) : DlResult

/-- The download loop (lines 70–82): for each url in order, call
`download_file`; on success append the local path to the accumulator and
record the file as created; on the first failure stop with the failing url,
the exception text, and the paths downloaded so far (the `except` block's
cleanup and response are produced by the caller, `concatenate_advanced_api`).
-/
def downloadLoop (env : Env) (urls : List Json) (acc : List String) (fs : FS) :
    DlResult × FS × List Event :=
  match urls with
  | [] => (.ok acc, fs, [])
  | u :: rest =>
    match env.fetch u with
    | .ok p =>
      let next := downloadLoop env rest (acc ++ [p]) (p :: fs)
      (next.1, next.2.1, .fetch u (.ok p) :: next.2.2)
    | .error e => (.fail u e acc, fs, [.fetch u (.error e)])

/-- The fixed trailing encoding arguments of the ffmpeg command
(lines 105–115, before the final output path). -/
def encodingArgs : List String :=
  ["-map", "[outv]", "-map", "[outa]",
   "-c:v", "libx264", "-crf", "23", "-preset", "medium",
   "-c:a", "aac", "-b:a", "128k", "-movflags", "+faststart"]

/-- The `['-i', path]` pairs, one per downloaded input, in order
(lines 87–89). -/
def inputArgs : List String → List String
  | [] => []
  | p :: rest => "-i" :: p :: inputArgs rest

/-- The full ffmpeg argument vector (lines 86–116): program name, the input
pairs, the filter-graph pair with the caller's `filter_complex` verbatim, the
fixed encoding arguments, and the output path last. -/
def buildCommand (paths : List String) (filt : String) (outPath : String) :
    List String :=
  "ffmpeg" :: inputArgs paths ++ ["-filter_complex", filt]
    ++ encodingArgs ++ [outPath]

/-- The output path (lines 96–98):
`os.path.join(LOCAL_STORAGE_PATH, f"{job_id_param}_advanced_concat_output" + ".mp4")`. -/
def outputFilepath (jobId : Json) : String :=
  osPathJoin LOCAL_STORAGE_PATH (pyStr jobId ++ "_advanced_concat_output" ++ ".mp4")

/-- `isinstance(j, list)`. -/
def Json.isList : Json → Bool
  | .arr _ => true
  | _ => false

/-- `isinstance(j, str)`. -/
def Json.isStr : Json → Bool
  | .str _ => true
  | _ => false

/-- Python `len` on the container values it is applied to after an
`isinstance` guard. -/
def Json.pyLen : Json → Nat
  | .arr elems => elems.length
  | .obj fields => fields.length
  | .str s => s.length
  | _ => 0

/-- The element list of a value known to be a list. -/
def Json.arrElems : Json → List Json
  | .arr elems => elems
  | _ => []

/-- The string of a value known to be a string. -/
def Json.strVal : Json → String
  | .str s => s
  | _ => ""

/-- Lines 86–154, the stages after a fully successful download loop:
command construction, tool execution with cleanup-on-failure,
output-existence check with cleanup-on-failure, upload (not guarded by a
stage-local handler: an upload exception falls through to the outer
`except Exception`, lines 151–154, which performs no file cleanup), success
cleanup, 200 response.  `fs1` and `evs` are the filesystem and trace after
the downloads. -/
def execStage (env : Env) (local_input_paths : List String) (filt : String)
    (job_id_param : Json) (fs1 : FS) (evs : List Event) :
    Outcome × FS × List Event :=
  let output_filepath := outputFilepath job_id_param
  let command := buildCommand local_input_paths filt output_filepath
  let fs2 := env.toolCreates command ++ fs1
  let evs2 := evs ++ [.run command]
  if !env.toolOk command then
    (.response ⟨500,
      .obj [("error", .str "FFmpeg command execution failed"),
            ("details", .str (env.toolStderr command))]⟩,
     removeIfExists output_filepath (cleanupFS local_input_paths fs2),
     evs2)
  else if !osPathExists output_filepath fs2 then
    (.response ⟨500,
      .obj [("error",
             .str "Output file not found after FFmpeg execution")]⟩,
     cleanupFS local_input_paths fs2, evs2)
  else
    match env.upload output_filepath with
    | .error e =>
      (.response ⟨500,
        .obj [("error", .str "An unexpected error occurred"),
              ("details", .str e)]⟩,
       fs2, evs2 ++ [.upload output_filepath (.error e)])
    | .ok final_output_url =>
      (.response ⟨200,
        .obj [("message", .str "Advanced concatenation successful"),
              ("output_url", .str final_output_url),
              ("job_id", job_id_param)]⟩,
       removeIfExists output_filepath (cleanupFS local_input_paths fs2),
       evs2 ++ [.upload output_filepath (.ok final_output_url)])

/-- Lines 70–154, the stages after validation: download loop with
cleanup-on-failure (the `except` branch of lines 76–82), then `execStage`. -/
def pipelineCore (env : Env) (urls : List Json) (filt : String)
    (job_id_param : Json) (fs : FS) : Outcome × FS × List Event :=
  match downloadLoop env urls [] fs with
  | (.fail u cause acc, fs1, evs) =>
    (.response ⟨500,
      .obj [("error", .str ("Failed to download input file: " ++ pyStr u)),
            ("details", .str cause)]⟩,
     cleanupFS acc fs1, evs)
  | (.ok local_input_paths, fs1, evs) =>
    execStage env local_input_paths filt job_id_param fs1 evs

/-- The handler `concatenate_advanced_api` (lines 52–154), as a function of

* `env` — the external collaborators,
* `body` — the parsed JSON request body (`none` when `request.json` itself
  raises: absent or unparseable body),
* `genId` — the value of `str(uuid.uuid4())` on this call,
* `fs` — the local filesystem at request time,

returning the outcome, the final filesystem, and the trace of external calls.

Line 53 runs before `try:`: on `body = none` the property raises out of the
handler, and on any non-object JSON body (including `null`, for which
`request.json` is `None`) `.get` raises `AttributeError` out of the handler.
For an object body the stages follow the source: truthiness check of `data`,
field validation, then the post-validation stages of `pipelineCore`. -/
def concatenate_advanced_api (env : Env) (body : Option Json) (genId : String)
    (fs : FS) : Outcome × FS × List Event :=
  match body with
  | none => (.raisedBeforeTry "werkzeug.HTTPException", fs, [])
  | some bodyJson =>
    match bodyJson with
    | .obj fields =>
      let job_id_param : Json := (assocGet fields "job_id").getD (.str genId)
      let data := Json.obj fields
      if data.falsy then
        (.response ⟨400, .obj [("error", .str "Invalid JSON payload")]⟩, fs, [])
      else
        let input_urls := (assocGet fields "input_urls").getD .null
        let filter_complex_str := (assocGet fields "filter_complex").getD .null
        if input_urls.falsy || !input_urls.isList || input_urls.pyLen == 0 then
          (.response ⟨400,
            .obj [("error", .str "Missing or invalid \x27input_urls\x27")]⟩,
           fs, [])
        else if filter_complex_str.falsy || !filter_complex_str.isStr then
          (.response ⟨400,
            .obj [("error",
                   .str "Missing or invalid \x27filter_complex\x27 string")]⟩,
           fs, [])
        else
          pipelineCore env input_urls.arrElems filter_complex_str.strVal
            job_id_param fs
    | _ => (.raisedBeforeTry "AttributeError", fs, [])

/-! ## Lemmas about the filesystem model -/

theorem contains_eq_true_of_mem {p : String} {fs : FS} (h : p ∈ fs) :
    fs.contains p = true :=
  List.elem_iff.mpr h

theorem contains_eq_false_of_not_mem {p : String} {fs : FS} (h : p ∉ fs) :
    fs.contains p = false := by
  cases hc : fs.contains p with
  | false => rfl
  | true => exact absurd (List.elem_iff.mp hc) h

theorem mem_of_contains_eq_true {p : String} {fs : FS}
    (h : fs.contains p = true) : p ∈ fs :=
  List.elem_iff.mp h

/-- A guarded removal is a plain filter: when the path is absent the filter
keeps everything anyway. -/
theorem removeIfExists_eq_filter (p : String) (fs : FS) :
    removeIfExists p fs = fs.filter (fun q => q != p) := by
  unfold removeIfExists osPathExists
  cases hc : fs.contains p with
  | true => simp
  | false =>
    have hnm : p ∉ fs := by
      intro hm
      rw [contains_eq_true_of_mem hm] at hc
      exact Bool.noConfusion hc
    simp only [Bool.false_eq_true, if_false]
    refine (List.filter_eq_self.mpr ?_).symm
    intro q hq
    exact bne_iff_ne.mpr (fun he => hnm (he ▸ hq))

/-- The cleanup loop filters out exactly the paths in its list. -/
theorem cleanupFS_eq_filter (paths : List String) (fs : FS) :
    cleanupFS paths fs = fs.filter (fun q => !(paths.contains q)) := by
  induction paths generalizing fs with
  | nil => simp [cleanupFS]
  | cons p rest ih =>
    rw [cleanupFS, removeIfExists_eq_filter, ih, List.filter_filter]
    refine List.filter_congr ?_
    intro q _
    show (!(rest.contains q) && (q != p)) = !((p :: rest).contains q)
    by_cases hqp : q = p
    · subst hqp
      simp [List.contains_cons]
    · cases hr : rest.contains q with
      | false =>
        simp only [List.contains_cons, hr, bne_iff_ne.mpr hqp,
                   beq_eq_false_iff_ne.mpr hqp, Bool.or_false, Bool.not_false,
                   Bool.and_true]
      | true =>
        simp only [List.contains_cons, hr, bne_iff_ne.mpr hqp,
                   beq_eq_false_iff_ne.mpr hqp, Bool.or_true, Bool.not_true,
                   Bool.false_and]

theorem mem_cleanupFS {q : String} {paths : List String} {fs : FS} :
    q ∈ cleanupFS paths fs ↔ q ∈ fs ∧ q ∉ paths := by
  simp [cleanupFS_eq_filter, List.mem_filter]

theorem not_mem_cleanupFS_of_mem {p : String} {paths : List String} {fs : FS}
    (h : p ∈ paths) : p ∉ cleanupFS paths fs := by
  intro hmem
  exact (mem_cleanupFS.mp hmem).2 h

theorem mem_removeIfExists {q p : String} {fs : FS} :
    q ∈ removeIfExists p fs ↔ q ∈ fs ∧ q ≠ p := by
  rw [removeIfExists_eq_filter, List.mem_filter]
  constructor
  · rintro ⟨hmem, hk⟩
    exact ⟨hmem, bne_iff_ne.mp hk⟩
  · rintro ⟨hmem, hk⟩
    exact ⟨hmem, bne_iff_ne.mpr hk⟩

/-- The fallible cleanup loop never raises: every removal it performs is
guarded by the existence check, so it always returns, with exactly the
total-function result. -/
theorem cleanupE_eq_ok (paths : List String) (fs : FS) :
    cleanupE paths fs = .ok (cleanupFS paths fs) := by
  induction paths generalizing fs with
  | nil => rfl
  | cons p rest ih =>
    rw [cleanupE, cleanupFS]
    have hg : guardedRemove p fs = .ok (removeIfExists p fs) := by
      unfold guardedRemove osRemove removeIfExists
      cases hc : osPathExists p fs <;> simp [hc]
    rw [hg]
    exact ih (removeIfExists p fs)

/-- Cleanup is idempotent. -/
theorem cleanupFS_idem (paths : List String) (fs : FS) :
    cleanupFS paths (cleanupFS paths fs) = cleanupFS paths fs := by
  simp [cleanupFS_eq_filter, List.filter_filter]

/-! ## Lemmas about the download loop -/

/-- When every fetch succeeds (with local path `f u` for reference `u`), the
download loop returns all local paths in reference order, creates exactly
those files, and records one fetch event per reference in order. -/
theorem downloadLoop_all_ok (env : Env) (f : Json → String) :
    ∀ (urls : List Json) (acc : List String) (fs : FS),
      (∀ u ∈ urls, env.fetch u = .ok (f u)) →
      downloadLoop env urls acc fs =
        (.ok (acc ++ urls.map f), (urls.map f).reverse ++ fs,
         urls.map (fun u => .fetch u (.ok (f u)))) := by
  intro urls
  induction urls with
  | nil => intro acc fs _; simp [downloadLoop]
  | cons u rest ih =>
    intro acc fs h
    have hu : env.fetch u = .ok (f u) := h u (List.mem_cons_self u rest)
    have hrest : ∀ x ∈ rest, env.fetch x = .ok (f x) :=
      fun x hx => h x (List.mem_cons_of_mem u hx)
    simp only [downloadLoop, hu]
    rw [ih (acc ++ [f u]) (f u :: fs) hrest]
    simp [List.append_assoc]

/-- When every fetch before position `k` succeeds and the fetch at position
`k` fails, the loop stops at `k` with exactly the earlier local paths
downloaded and recorded, and no later reference fetched. -/
theorem downloadLoop_fail_at (env : Env) (f : Json → String) (u : Json)
    (e : String) :
    ∀ (pre post : List Json) (acc : List String) (fs : FS),
      (∀ x ∈ pre, env.fetch x = .ok (f x)) → env.fetch u = .error e →
      downloadLoop env (pre ++ u :: post) acc fs =
        (.fail u e (acc ++ pre.map f), (pre.map f).reverse ++ fs,
         pre.map (fun x => .fetch x (.ok (f x))) ++ [.fetch u (.error e)]) := by
  intro pre
  induction pre with
  | nil =>
    intro post acc fs _ hu
    simp [downloadLoop, hu]
  | cons x rest ih =>
    intro post acc fs h hu
    have hx : env.fetch x = .ok (f x) := h x (List.mem_cons_self x rest)
    have hrest : ∀ y ∈ rest, env.fetch y = .ok (f y) :=
      fun y hy => h y (List.mem_cons_of_mem x hy)
    simp only [List.cons_append, downloadLoop, hx, List.append_eq]
    rw [ih post (acc ++ [f x]) (f x :: fs) hrest hu]
    simp [List.append_assoc]

/-! ## Lemmas about the constructed argument vector -/

theorem inputArgs_length (paths : List String) :
    (inputArgs paths).length = 2 * paths.length := by
  induction paths with
  | nil => rfl
  | cons p rest ih => simp [inputArgs, ih]; omega

theorem inputArgs_append_drop (paths : List String) (tail : List String) :
    (inputArgs paths ++ tail).drop (2 * paths.length) = tail := by
  induction paths with
  | nil => simp [inputArgs]
  | cons p rest ih =>
    have h2 : 2 * (rest.length + 1) = (2 * rest.length) + 1 + 1 := by omega
    simp only [inputArgs, List.length_cons, List.cons_append, h2,
               List.drop_succ_cons]
    exact ih

theorem inputArgs_append_get (paths : List String) (tail : List String) :
    ∀ k, k < paths.length →
      (inputArgs paths ++ tail)[2 * k]? = some "-i" ∧
      (inputArgs paths ++ tail)[2 * k + 1]? = paths[k]? := by
  induction paths with
  | nil => intro k hk; exact absurd hk (Nat.not_lt_zero k)
  | cons p rest ih =>
    intro k hk
    cases k with
    | zero => simp [inputArgs]
    | succ j =>
      have hj : j < rest.length := Nat.lt_of_succ_lt_succ hk
      have h2 : 2 * (j + 1) = (2 * j) + 1 + 1 := by omega
      have h3 : 2 * (j + 1) + 1 = ((2 * j) + 1) + 1 + 1 := by omega
      simp only [inputArgs, List.cons_append, h2, h3, List.getElem?_cons_succ]
      exact ⟨(ih j hj).1, (ih j hj).2⟩

/-! ## Reduction of the handler on validated requests -/

/-- On an object body whose `input_urls` is a non-empty list and whose
`filter_complex` is a non-empty string, validation passes and the handler
runs the post-validation stages on the validated values. -/
theorem api_after_validation (env : Env) (fields : List (String × Json))
    (urls : List Json) (filt : String) (genId : String) (fs : FS)
    (hurls : assocGet fields "input_urls" = some (.arr urls))
    (hne : urls ≠ [])
    (hfilt : assocGet fields "filter_complex" = some (.str filt))
    (hfne : filt ≠ "") :
    concatenate_advanced_api env (some (.obj fields)) genId fs =
      pipelineCore env urls filt
        ((assocGet fields "job_id").getD (.str genId)) fs := by
  have hfe : fields ≠ [] := by
    intro h
    subst h
    simp [assocGet] at hurls
  have h1 : (Json.obj fields).falsy = false := by
    simp [Json.falsy, List.isEmpty_iff, hfe]
  have h2 : ((Json.arr urls).falsy || !(Json.arr urls).isList
      || ((Json.arr urls).pyLen == 0)) = false := by
    have hlen : urls.length ≠ 0 := fun h => hne (List.length_eq_zero.mp h)
    simp [Json.falsy, Json.isList, Json.pyLen, List.isEmpty_iff, hne, hlen]
  have h3 : ((Json.str filt).falsy || !(Json.str filt).isStr) = false := by
    simp [Json.falsy, Json.isStr, hfne]
  unfold concatenate_advanced_api
  simp only [hurls, hfilt, Option.getD_some, h1, h2, h3, Bool.false_eq_true,
             if_false, Json.arrElems, Json.strVal]

/-- The job identifier of the request: the caller-supplied `job_id` value,
or the generated token when the key is absent (line 53). -/
def jobIdOf (fields : List (String × Json)) (genId : String) : Json :=
  (assocGet fields "job_id").getD (.str genId)

theorem not_mem_removeIfExists_self (p : String) (fs : FS) :
    p ∉ removeIfExists p fs :=
  fun h => (mem_removeIfExists.mp h).2 rfl

theorem not_mem_removeIfExists_of_not_mem {q p : String} {fs : FS}
    (h : q ∉ fs) : q ∉ removeIfExists p fs :=
  fun hm => h (mem_removeIfExists.mp hm).1

theorem all_not_contains_of_forall (paths : List String) (fs' : FS)
    (h : ∀ p ∈ paths, p ∉ fs') :
    paths.all (fun p => !(fs'.contains p)) = true := by
  rw [List.all_eq_true]
  intro p hp
  rw [contains_eq_false_of_not_mem (h p hp)]
  rfl

/-- Every downloaded path is gone from the final state of a
cleanup-inputs-then-remove-output sequence. -/
theorem downloaded_gone (paths : List String) (outP : String) (fs2 : FS) :
    paths.all
      (fun p => !((removeIfExists outP (cleanupFS paths fs2)).contains p))
      = true := by
  refine all_not_contains_of_forall _ _ ?_
  intro p hp
  exact not_mem_removeIfExists_of_not_mem (not_mem_cleanupFS_of_mem hp)

/-! ## Concrete fixtures for witnesses and counterexamples -/

def urlX : Json := .str "http://a/x.mp4"

def urlY : Json := .str "http://a/y.mp4"

/-- A well-formed request body with two input urls, a filter graph and a
caller-supplied job id. -/
def demoFields : List (String × Json) :=
  [("input_urls", .arr [urlX, urlY]),
   ("filter_complex", .str "[0:v][1:v]concat=n=2:v=1[outv]"),
   ("job_id", .str "J1")]

/-- A deterministic local-path assignment used by the demo fetcher. -/
def demoFetch : Json → String := fun u => "/tmp/in_" ++ pyStr u

/-- A fully successful set of collaborators: every download succeeds, the
tool exits 0 and writes exactly its final argument (the output path), and
the upload returns a remote url. -/
def envBase : Env :=
  { fetch := fun u => .ok (demoFetch u)
  , toolOk := fun _ => true
  , toolStderr := fun _ => "ffmpeg: filter parse error"
  , toolCreates := fun argv => [argv.getLastD ""]
  , upload := fun _ => .ok "gs://bucket/out.mp4" }

/-- Collaborators whose tool invocation exits non-zero. -/
def envToolFail : Env := { envBase with toolOk := fun _ => false }

/-! ## Claim theorems -/

/-- **C5.** For every request that reaches tool execution, if the external
tool exits with a failure status, then all downloaded input files are
removed, the output path is removed if it exists, and the call returns a 500
error carrying the tool's captured standard-error text; the Publisher is
never called on this path (the trace ends at the run event, with no upload
event). -/
theorem C5_exec_failure (env : Env) (fields : List (String × Json))
    (urls : List Json) (filt : String) (genId : String) (fs : FS)
    (f : Json → String)
    (hurls : assocGet fields "input_urls" = some (.arr urls))
    (hne : urls ≠ [])
    (hfilt : assocGet fields "filter_complex" = some (.str filt))
    (hfne : filt ≠ "")
    (hf : ∀ u ∈ urls, env.fetch u = .ok (f u))
    (htool : env.toolOk (buildCommand (urls.map f) filt
        (outputFilepath (jobIdOf fields genId))) = false) :
    concatenate_advanced_api env (some (.obj fields)) genId fs =
      (.response ⟨500,
        .obj [("error", .str "FFmpeg command execution failed"),
              ("details", .str (env.toolStderr (buildCommand (urls.map f) filt
                 (outputFilepath (jobIdOf fields genId)))))]⟩,
       removeIfExists (outputFilepath (jobIdOf fields genId))
         (cleanupFS (urls.map f)
           (env.toolCreates (buildCommand (urls.map f) filt
              (outputFilepath (jobIdOf fields genId)))
            ++ ((urls.map f).reverse ++ fs))),
       urls.map (fun u => Event.fetch u (.ok (f u)))
         ++ [.run (buildCommand (urls.map f) filt
              (outputFilepath (jobIdOf fields genId)))]) ∧
    (urls.map f).all (fun p =>
        !((concatenate_advanced_api env (some (.obj fields)) genId
            fs).2.1.contains p)) = true ∧
    ((concatenate_advanced_api env (some (.obj fields)) genId
        fs).2.1.contains (outputFilepath (jobIdOf fields genId))) = false := by
  have hmain : concatenate_advanced_api env (some (.obj fields)) genId fs =
      (.response ⟨500,
        .obj [("error", .str "FFmpeg command execution failed"),
              ("details", .str (env.toolStderr (buildCommand (urls.map f) filt
                 (outputFilepath (jobIdOf fields genId)))))]⟩,
       removeIfExists (outputFilepath (jobIdOf fields genId))
         (cleanupFS (urls.map f)
           (env.toolCreates (buildCommand (urls.map f) filt
              (outputFilepath (jobIdOf fields genId)))
            ++ ((urls.map f).reverse ++ fs))),
       urls.map (fun u => Event.fetch u (.ok (f u)))
         ++ [.run (buildCommand (urls.map f) filt
              (outputFilepath (jobIdOf fields genId)))]) := by
    rw [api_after_validation env fields urls filt genId fs hurls hne hfilt hfne]
    unfold pipelineCore
    rw [downloadLoop_all_ok env f urls [] fs hf]
    unfold execStage
    simp only [jobIdOf] at htool
    simp only [List.nil_append, htool, Bool.not_false, if_true, jobIdOf]
  refine ⟨hmain, ?_, ?_⟩
  · rw [hmain]
    exact downloaded_gone _ _ _
  · rw [hmain]
    exact contains_eq_false_of_not_mem (not_mem_removeIfExists_self _ _)

/-- Witness for C5 at a concrete input: tool failure on the demo request
yields the 500 execution error with the captured stderr, an empty final
filesystem (both downloaded inputs and the partially written output removed),
and a trace with no upload event. -/
theorem C5_exec_failure_witness :
    (concatenate_advanced_api envToolFail (some (.obj demoFields)) "gen"
        []).1 =
      .response ⟨500,
        .obj [("error", .str "FFmpeg command execution failed"),
              ("details", .str "ffmpeg: filter parse error")]⟩ ∧
    (concatenate_advanced_api envToolFail (some (.obj demoFields)) "gen"
        []).2.1 = [] ∧
    (concatenate_advanced_api envToolFail (some (.obj demoFields)) "gen"
        []).2.2 =
      [.fetch urlX (.ok "/tmp/in_http://a/x.mp4"),
       .fetch urlY (.ok "/tmp/in_http://a/y.mp4"),
       .run (buildCommand ["/tmp/in_http://a/x.mp4", "/tmp/in_http://a/y.mp4"]
          "[0:v][1:v]concat=n=2:v=1[outv]"
          "/tmp/J1_advanced_concat_output.mp4")] := by
  have h := C5_exec_failure envToolFail demoFields [urlX, urlY]
    "[0:v][1:v]concat=n=2:v=1[outv]" "gen" [] demoFetch rfl
    (List.cons_ne_nil _ _) rfl (by decide) (fun u _ => rfl) rfl
  exact ⟨by rw [h.1]; rfl, by rw [h.1]; rfl, by rw [h.1]; rfl⟩

/-- **C6.** For every request in which the external tool exits successfully
but the expected output path does not exist on the local filesystem
afterwards, the call fails with the distinct missing-output 500 error (not a
success and not the generic execution error), and all downloaded input files
are removed before the call returns. -/
theorem C6_missing_output (env : Env) (fields : List (String × Json))
    (urls : List Json) (filt : String) (genId : String) (fs : FS)
    (f : Json → String)
    (hurls : assocGet fields "input_urls" = some (.arr urls))
    (hne : urls ≠ [])
    (hfilt : assocGet fields "filter_complex" = some (.str filt))
    (hfne : filt ≠ "")
    (hf : ∀ u ∈ urls, env.fetch u = .ok (f u))
    (htool : env.toolOk (buildCommand (urls.map f) filt
        (outputFilepath (jobIdOf fields genId))) = true)
    (hmiss : osPathExists (outputFilepath (jobIdOf fields genId))
        (env.toolCreates (buildCommand (urls.map f) filt
           (outputFilepath (jobIdOf fields genId)))
         ++ ((urls.map f).reverse ++ fs)) = false) :
    concatenate_advanced_api env (some (.obj fields)) genId fs =
      (.response ⟨500,
        .obj [("error",
               .str "Output file not found after FFmpeg execution")]⟩,
       cleanupFS (urls.map f)
         (env.toolCreates (buildCommand (urls.map f) filt
            (outputFilepath (jobIdOf fields genId)))
          ++ ((urls.map f).reverse ++ fs)),
       urls.map (fun u => Event.fetch u (.ok (f u)))
         ++ [.run (buildCommand (urls.map f) filt
              (outputFilepath (jobIdOf fields genId)))]) ∧
    (urls.map f).all (fun p =>
        !((concatenate_advanced_api env (some (.obj fields)) genId
            fs).2.1.contains p)) = true := by
  have hmain : concatenate_advanced_api env (some (.obj fields)) genId fs =
      (.response ⟨500,
        .obj [("error",
               .str "Output file not found after FFmpeg execution")]⟩,
       cleanupFS (urls.map f)
         (env.toolCreates (buildCommand (urls.map f) filt
            (outputFilepath (jobIdOf fields genId)))
          ++ ((urls.map f).reverse ++ fs)),
       urls.map (fun u => Event.fetch u (.ok (f u)))
         ++ [.run (buildCommand (urls.map f) filt
              (outputFilepath (jobIdOf fields genId)))]) := by
    rw [api_after_validation env fields urls filt genId fs hurls hne hfilt hfne]
    unfold pipelineCore
    rw [downloadLoop_all_ok env f urls [] fs hf]
    unfold execStage
    simp only [jobIdOf] at htool hmiss
    simp only [List.nil_append, htool, hmiss, Bool.not_true, Bool.not_false,
               Bool.false_eq_true, if_false, if_true, jobIdOf]
  refine ⟨hmain, ?_⟩
  rw [hmain]
  refine all_not_contains_of_forall _ _ ?_
  intro p hp
  exact not_mem_cleanupFS_of_mem hp

/-- Collaborators whose tool reports success but writes no file at all. -/
def envNoOutput : Env := { envBase with toolCreates := fun _ => [] }

/-- Witness for C6 at a concrete input: on the demo request with a tool that
exits 0 without writing the output, the handler returns the distinct
missing-output 500 error and the final filesystem holds no downloaded
input. -/
theorem C6_missing_output_witness :
    (concatenate_advanced_api envNoOutput (some (.obj demoFields)) "gen"
        []).1 =
      .response ⟨500,
        .obj [("error",
               .str "Output file not found after FFmpeg execution")]⟩ ∧
    (concatenate_advanced_api envNoOutput (some (.obj demoFields)) "gen"
        []).2.1 = [] := by
  have h := C6_missing_output envNoOutput demoFields [urlX, urlY]
    "[0:v][1:v]concat=n=2:v=1[outv]" "gen" [] demoFetch rfl
    (List.cons_ne_nil _ _) rfl (by decide) (fun u _ => rfl) rfl rfl
  refine ⟨?_, ?_⟩
  · rw [h.1]
  · rw [h.1]
    rfl

/-- **C1.** For every request in which validation, all downloads, the tool
invocation, the output-existence check and the upload succeed, the call
returns a 200 JSON object containing a message, the Publisher's returned
reference as `output_url`, and the `job_id` that was supplied in the request
or generated for it — and after the call neither any downloaded input file
nor the local output file exists on disk. -/
theorem C1_success (env : Env) (fields : List (String × Json))
    (urls : List Json) (filt : String) (genId : String) (fs : FS)
    (f : Json → String) (remoteUrl : String)
    (hurls : assocGet fields "input_urls" = some (.arr urls))
    (hne : urls ≠ [])
    (hfilt : assocGet fields "filter_complex" = some (.str filt))
    (hfne : filt ≠ "")
    (hf : ∀ u ∈ urls, env.fetch u = .ok (f u))
    (htool : env.toolOk (buildCommand (urls.map f) filt
        (outputFilepath (jobIdOf fields genId))) = true)
    (hout : outputFilepath (jobIdOf fields genId) ∈
        env.toolCreates (buildCommand (urls.map f) filt
          (outputFilepath (jobIdOf fields genId))))
    (hup : env.upload (outputFilepath (jobIdOf fields genId)) =
        .ok remoteUrl) :
    concatenate_advanced_api env (some (.obj fields)) genId fs =
      (.response ⟨200,
        .obj [("message", .str "Advanced concatenation successful"),
              ("output_url", .str remoteUrl),
              ("job_id", jobIdOf fields genId)]⟩,
       removeIfExists (outputFilepath (jobIdOf fields genId))
         (cleanupFS (urls.map f)
           (env.toolCreates (buildCommand (urls.map f) filt
              (outputFilepath (jobIdOf fields genId)))
            ++ ((urls.map f).reverse ++ fs))),
       urls.map (fun u => Event.fetch u (.ok (f u)))
         ++ [.run (buildCommand (urls.map f) filt
              (outputFilepath (jobIdOf fields genId)))]
         ++ [.upload (outputFilepath (jobIdOf fields genId))
              (.ok remoteUrl)]) ∧
    (urls.map f).all (fun p =>
        !((concatenate_advanced_api env (some (.obj fields)) genId
            fs).2.1.contains p)) = true ∧
    ((concatenate_advanced_api env (some (.obj fields)) genId
        fs).2.1.contains (outputFilepath (jobIdOf fields genId))) = false := by
  have hex : osPathExists (outputFilepath (jobIdOf fields genId))
      (env.toolCreates (buildCommand (urls.map f) filt
         (outputFilepath (jobIdOf fields genId)))
       ++ ((urls.map f).reverse ++ fs)) = true :=
    contains_eq_true_of_mem (List.mem_append_left _ hout)
  have hmain : concatenate_advanced_api env (some (.obj fields)) genId fs =
      (.response ⟨200,
        .obj [("message", .str "Advanced concatenation successful"),
              ("output_url", .str remoteUrl),
              ("job_id", jobIdOf fields genId)]⟩,
       removeIfExists (outputFilepath (jobIdOf fields genId))
         (cleanupFS (urls.map f)
           (env.toolCreates (buildCommand (urls.map f) filt
              (outputFilepath (jobIdOf fields genId)))
            ++ ((urls.map f).reverse ++ fs))),
       urls.map (fun u => Event.fetch u (.ok (f u)))
         ++ [.run (buildCommand (urls.map f) filt
              (outputFilepath (jobIdOf fields genId)))]
         ++ [.upload (outputFilepath (jobIdOf fields genId))
              (.ok remoteUrl)]) := by
    rw [api_after_validation env fields urls filt genId fs hurls hne hfilt hfne]
    unfold pipelineCore
    rw [downloadLoop_all_ok env f urls [] fs hf]
    unfold execStage
    simp only [jobIdOf] at htool hex hup
    simp only [List.nil_append, htool, hex, hup, Bool.not_true,
               Bool.false_eq_true, if_false, jobIdOf, List.append_assoc,
               List.singleton_append]
  refine ⟨hmain, ?_, ?_⟩
  · rw [hmain]
    exact downloaded_gone _ _ _
  · rw [hmain]
    exact contains_eq_false_of_not_mem (not_mem_removeIfExists_self _ _)

/-- Witness for C1 at a concrete input: the fully successful demo run
returns 200 with the publisher's url and the supplied job id, an empty final
filesystem, and the full external-call trace. -/
theorem C1_success_witness :
    (concatenate_advanced_api envBase (some (.obj demoFields)) "gen"
        []).1 =
      .response ⟨200,
        .obj [("message", .str "Advanced concatenation successful"),
              ("output_url", .str "gs://bucket/out.mp4"),
              ("job_id", .str "J1")]⟩ ∧
    (concatenate_advanced_api envBase (some (.obj demoFields)) "gen"
        []).2.1 = [] := by
  have h := C1_success envBase demoFields [urlX, urlY]
    "[0:v][1:v]concat=n=2:v=1[outv]" "gen" [] demoFetch "gs://bucket/out.mp4"
    rfl (List.cons_ne_nil _ _) rfl (by decide) (fun u _ => rfl) rfl
    (List.mem_singleton.mpr rfl) rfl
  refine ⟨?_, ?_⟩
  · rw [h.1]
    try rfl
  · rw [h.1]
    try rfl

theorem all_contains_of_forall (paths : List String) (fs' : FS)
    (h : ∀ p ∈ paths, p ∈ fs') :
    paths.all (fun p => fs'.contains p) = true := by
  rw [List.all_eq_true]
  intro p hp
  exact contains_eq_true_of_mem (h p hp)

/-- Collaborators whose upload raises. -/
def envUploadFail : Env :=
  { envBase with upload := fun _ => .error "gcs unavailable" }

/-- Counterexample to **C7** as stated.  On a concrete request whose upload
fails, the call returns the unclassified internal 500 error (`"An unexpected
error occurred"`), not a publish-specific one, and the final filesystem still
holds the local output file and both downloaded input files: nothing was
removed. -/
theorem C7_counterexample :
    (concatenate_advanced_api envUploadFail (some (.obj demoFields)) "gen"
        []).1 =
      .response ⟨500,
        .obj [("error", .str "An unexpected error occurred"),
              ("details", .str "gcs unavailable")]⟩ ∧
    (concatenate_advanced_api envUploadFail (some (.obj demoFields)) "gen"
        []).2.1 =
      ["/tmp/J1_advanced_concat_output.mp4", "/tmp/in_http://a/y.mp4",
       "/tmp/in_http://a/x.mp4"] :=
  ⟨rfl, rfl⟩

/-- **C7 (amended).** When the Publisher fails, the exception propagates to
the outer catch-all: the call returns the unclassified internal 500 error
(`{error: "An unexpected error occurred", details: cause}`), and neither the
downloaded input files nor the local output file are removed — all of them
still exist on disk when the call returns. -/
theorem C7_publish_failure_amended (env : Env)
    (fields : List (String × Json)) (urls : List Json) (filt : String)
    (genId : String) (fs : FS) (f : Json → String) (e : String)
    (hurls : assocGet fields "input_urls" = some (.arr urls))
    (hne : urls ≠ [])
    (hfilt : assocGet fields "filter_complex" = some (.str filt))
    (hfne : filt ≠ "")
    (hf : ∀ u ∈ urls, env.fetch u = .ok (f u))
    (htool : env.toolOk (buildCommand (urls.map f) filt
        (outputFilepath (jobIdOf fields genId))) = true)
    (hout : outputFilepath (jobIdOf fields genId) ∈
        env.toolCreates (buildCommand (urls.map f) filt
          (outputFilepath (jobIdOf fields genId))))
    (hup : env.upload (outputFilepath (jobIdOf fields genId)) = .error e) :
    concatenate_advanced_api env (some (.obj fields)) genId fs =
      (.response ⟨500,
        .obj [("error", .str "An unexpected error occurred"),
              ("details", .str e)]⟩,
       env.toolCreates (buildCommand (urls.map f) filt
          (outputFilepath (jobIdOf fields genId)))
         ++ ((urls.map f).reverse ++ fs),
       urls.map (fun u => Event.fetch u (.ok (f u)))
         ++ [.run (buildCommand (urls.map f) filt
              (outputFilepath (jobIdOf fields genId)))]
         ++ [.upload (outputFilepath (jobIdOf fields genId)) (.error e)]) ∧
    (urls.map f).all (fun p =>
        (concatenate_advanced_api env (some (.obj fields)) genId
           fs).2.1.contains p) = true ∧
    ((concatenate_advanced_api env (some (.obj fields)) genId
        fs).2.1.contains (outputFilepath (jobIdOf fields genId))) = true := by
  have hex : osPathExists (outputFilepath (jobIdOf fields genId))
      (env.toolCreates (buildCommand (urls.map f) filt
         (outputFilepath (jobIdOf fields genId)))
       ++ ((urls.map f).reverse ++ fs)) = true :=
    contains_eq_true_of_mem (List.mem_append_left _ hout)
  have hmain : concatenate_advanced_api env (some (.obj fields)) genId fs =
      (.response ⟨500,
        .obj [("error", .str "An unexpected error occurred"),
              ("details", .str e)]⟩,
       env.toolCreates (buildCommand (urls.map f) filt
          (outputFilepath (jobIdOf fields genId)))
         ++ ((urls.map f).reverse ++ fs),
       urls.map (fun u => Event.fetch u (.ok (f u)))
         ++ [.run (buildCommand (urls.map f) filt
              (outputFilepath (jobIdOf fields genId)))]
         ++ [.upload (outputFilepath (jobIdOf fields genId)) (.error e)]) := by
    rw [api_after_validation env fields urls filt genId fs hurls hne hfilt hfne]
    unfold pipelineCore
    rw [downloadLoop_all_ok env f urls [] fs hf]
    unfold execStage
    simp only [jobIdOf] at htool hex hup
    simp only [List.nil_append, htool, hex, hup, Bool.not_true,
               Bool.false_eq_true, if_false, jobIdOf, List.append_assoc,
               List.singleton_append]
  refine ⟨hmain, ?_, ?_⟩
  · rw [hmain]
    refine all_contains_of_forall _ _ ?_
    intro p hp
    exact List.mem_append_right _
      (List.mem_append_left _ (List.mem_reverse.mpr hp))
  · rw [hmain]
    exact contains_eq_true_of_mem (List.mem_append_left _ hout)

/-- Witness for the amended C7 at a concrete input: the publish-failure demo
run returns the unclassified 500 error and all three local files remain. -/
theorem C7_publish_failure_amended_witness :
    (concatenate_advanced_api envUploadFail (some (.obj demoFields)) "gen"
        []).2.1 =
      ["/tmp/J1_advanced_concat_output.mp4", "/tmp/in_http://a/y.mp4",
       "/tmp/in_http://a/x.mp4"] ∧
    (concatenate_advanced_api envUploadFail (some (.obj demoFields)) "gen"
        []).2.1.contains "/tmp/in_http://a/x.mp4" = true := by
  have h := C7_publish_failure_amended envUploadFail demoFields [urlX, urlY]
    "[0:v][1:v]concat=n=2:v=1[outv]" "gen" [] demoFetch "gcs unavailable"
    rfl (List.cons_ne_nil _ _) rfl (by decide) (fun u _ => rfl) rfl
    (List.mem_singleton.mpr rfl) rfl
  refine ⟨?_, ?_⟩
  · rw [h.1]
    try rfl
  · rw [h.1]
    try rfl

/-- Cleaning up exactly the files just downloaded leaves the pre-existing
filesystem minus any files that shared a downloaded path. -/
theorem cleanup_after_downloads (paths : List String) (fs : FS) :
    cleanupFS paths (paths.reverse ++ fs) =
      fs.filter (fun q => !(paths.contains q)) := by
  rw [cleanupFS_eq_filter, List.filter_append]
  have h1 : paths.reverse.filter (fun q => !(paths.contains q)) = [] := by
    rw [List.filter_eq_nil_iff]
    intro a ha
    rw [List.mem_reverse] at ha
    rw [contains_eq_true_of_mem ha]
    simp
  rw [h1, List.nil_append]

/-- **C4.** For every valid request, if the download of the reference at
position `k` (= `pre.length + 1`) fails, then exactly the `k − 1` previously
downloaded local artifacts are removed (the final filesystem is the initial
one minus the downloaded paths, nothing else), no reference at position `k`
or later is fetched (the trace holds exactly the `k − 1` successful fetches
followed by the failing one), and the call returns a 500 error naming the
failing reference and carrying the underlying cause. -/
theorem C4_download_failure (env : Env) (fields : List (String × Json))
    (pre post : List Json) (u : Json) (cause : String) (filt : String)
    (genId : String) (fs : FS) (f : Json → String)
    (hurls : assocGet fields "input_urls" = some (.arr (pre ++ u :: post)))
    (hfilt : assocGet fields "filter_complex" = some (.str filt))
    (hfne : filt ≠ "")
    (hpre : ∀ x ∈ pre, env.fetch x = .ok (f x))
    (hfail : env.fetch u = .error cause) :
    concatenate_advanced_api env (some (.obj fields)) genId fs =
      (.response ⟨500,
        .obj [("error",
               .str ("Failed to download input file: " ++ pyStr u)),
              ("details", .str cause)]⟩,
       fs.filter (fun q => !((pre.map f).contains q)),
       pre.map (fun x => Event.fetch x (.ok (f x)))
         ++ [.fetch u (.error cause)]) ∧
    (pre.map f).all (fun p =>
        !((concatenate_advanced_api env (some (.obj fields)) genId
            fs).2.1.contains p)) = true := by
  have hne : pre ++ u :: post ≠ [] := by
    intro hcontra
    have hl := congrArg List.length hcontra
    simp at hl
  have hmain : concatenate_advanced_api env (some (.obj fields)) genId fs =
      (.response ⟨500,
        .obj [("error",
               .str ("Failed to download input file: " ++ pyStr u)),
              ("details", .str cause)]⟩,
       fs.filter (fun q => !((pre.map f).contains q)),
       pre.map (fun x => Event.fetch x (.ok (f x)))
         ++ [.fetch u (.error cause)]) := by
    rw [api_after_validation env fields (pre ++ u :: post) filt genId fs
          hurls hne hfilt hfne]
    unfold pipelineCore
    rw [downloadLoop_fail_at env f u cause pre post [] fs hpre hfail]
    simp only [List.nil_append]
    rw [cleanup_after_downloads]
  refine ⟨hmain, ?_⟩
  rw [hmain]
  refine all_not_contains_of_forall _ _ ?_
  intro p hp hmem
  have hkeep := (List.mem_filter.mp hmem).2
  rw [contains_eq_true_of_mem hp] at hkeep
  exact Bool.noConfusion hkeep

/-- A fetcher that succeeds on the first demo url and fails on every other
reference. -/
def fetchFailY : Json → Except String String := fun u =>
  match u with
  | .str s =>
    if s == "http://a/x.mp4" then .ok (demoFetch (.str s))
    else .error "404 not found"
  | _ => .error "TypeError"

/-- Collaborators whose second download fails. -/
def envFetchFail : Env := { envBase with fetch := fetchFailY }

/-- Witness for C4 at a concrete input: on the demo request the second
download fails, the 500 error names the failing url and carries the cause,
the one previously downloaded artifact is removed (final filesystem empty),
and no later reference is fetched. -/
theorem C4_download_failure_witness :
    (concatenate_advanced_api envFetchFail (some (.obj demoFields)) "gen"
        []).1 =
      .response ⟨500,
        .obj [("error",
               .str "Failed to download input file: http://a/y.mp4"),
              ("details", .str "404 not found")]⟩ ∧
    (concatenate_advanced_api envFetchFail (some (.obj demoFields)) "gen"
        []).2.1 = [] ∧
    (concatenate_advanced_api envFetchFail (some (.obj demoFields)) "gen"
        []).2.2 =
      [.fetch urlX (.ok "/tmp/in_http://a/x.mp4"),
       .fetch urlY (.error "404 not found")] := by
  have h := C4_download_failure envFetchFail demoFields [urlX] [] urlY
    "404 not found" "[0:v][1:v]concat=n=2:v=1[outv]" "gen" [] demoFetch
    rfl rfl (by decide)
    (by
      intro x hx
      rw [List.mem_singleton] at hx
      subst hx
      rfl)
    rfl
  refine ⟨?_, ?_, ?_⟩
  · rw [h.1]
    try rfl
  · rw [h.1]
    try rfl
  · rw [h.1]
    try rfl

/-- **C3 (evaluation at the failing input).** Line 53
(`request.json.get('job_id', str(uuid.uuid4()))`) runs before the `try:`
block, so for a request whose JSON body parses to `null` (for which Flask's
`request.json` is `None`) the attribute access raises `AttributeError` out of
the handler before any validation response can be produced: the claimed 400
`{error}` JSON object is never returned, no file is touched and no external
call is made.  (For a body that fails to parse at all, `request.json` itself
raises at the same line, likewise before the handler's own 400 path.) -/
theorem C3_null_body_raises (env : Env) (genId : String) (fs : FS) :
    concatenate_advanced_api env (some .null) genId fs =
      (.raisedBeforeTry "AttributeError", fs, []) :=
  rfl

/-- **C9.** Cleanup of local artifacts never raises and is idempotent: the
fallible cleanup loop (each `os.remove` guarded by `os.path.exists`) always
returns `ok` — on any filesystem, including one where some or all of the
paths are already gone — and running it a second time on the state it
produced succeeds and changes nothing. -/
theorem C9_cleanup_idempotent (paths : List String) (fs : FS) :
    cleanupE paths fs = .ok (cleanupFS paths fs) ∧
    cleanupE paths (cleanupFS paths fs) = .ok (cleanupFS paths fs) :=
  ⟨cleanupE_eq_ok paths fs, by rw [cleanupE_eq_ok, cleanupFS_idem]⟩

/-- The HTTP status of an outcome, when the handler returned a response. -/
def responseStatus : Outcome → Option Nat
  | .response r => some r.status
  | .raisedBeforeTry _ => none

/-- The trace of the post-download stage is the download trace, then the
tool invocation, then at most an upload event. -/
theorem execStage_trace (env : Env) (paths : List String) (filt : String)
    (j : Json) (fs1 : FS) (evs : List Event) :
    ∃ tail, (execStage env paths filt j fs1 evs).2.2 =
      evs ++ .run (buildCommand paths filt (outputFilepath j)) :: tail := by
  simp only [execStage]
  cases htool : env.toolOk (buildCommand paths filt (outputFilepath j)) with
  | false => exact ⟨[], by simp [htool]⟩
  | true =>
    cases hex : osPathExists (outputFilepath j)
        (env.toolCreates (buildCommand paths filt (outputFilepath j))
          ++ fs1) with
    | false => exact ⟨[], by simp [htool, hex]⟩
    | true =>
      cases hup : env.upload (outputFilepath j) with
      | error e =>
        exact ⟨[.upload (outputFilepath j) (.error e)],
          by simp [htool, hex, hup]⟩
      | ok r =>
        exact ⟨[.upload (outputFilepath j) (.ok r)],
          by simp [htool, hex, hup]⟩

/-- The post-download stage never produces a 400 response. -/
theorem execStage_not_400 (env : Env) (paths : List String) (filt : String)
    (j : Json) (fs1 : FS) (evs : List Event) :
    (responseStatus (execStage env paths filt j fs1 evs).1 == some 400)
      = false := by
  simp only [execStage]
  cases htool : env.toolOk (buildCommand paths filt (outputFilepath j)) with
  | false => simp [htool, responseStatus]
  | true =>
    cases hex : osPathExists (outputFilepath j)
        (env.toolCreates (buildCommand paths filt (outputFilepath j))
          ++ fs1) with
    | false => simp [htool, hex, responseStatus]
    | true =>
      cases hup : env.upload (outputFilepath j) with
      | error e => simp [htool, hex, hup, responseStatus]
      | ok r => simp [htool, hex, hup, responseStatus]

/-- **C10 (implicit).** Stage-0 validation does not type-check the elements
of `input_urls`: any non-empty list — its elements may be numbers, `null`,
or nested objects — together with a non-empty `filter_complex` string passes
validation (no 400 is returned), and the pipeline then attempts a download
for every element, in order. -/
theorem C10_elements_not_type_checked (env : Env)
    (fields : List (String × Json)) (urls : List Json) (filt : String)
    (genId : String) (fs : FS) (f : Json → String)
    (hurls : assocGet fields "input_urls" = some (.arr urls))
    (hne : urls ≠ [])
    (hfilt : assocGet fields "filter_complex" = some (.str filt))
    (hfne : filt ≠ "")
    (hf : ∀ u ∈ urls, env.fetch u = .ok (f u)) :
    ((concatenate_advanced_api env (some (.obj fields)) genId
        fs).2.2).take urls.length =
      urls.map (fun u => Event.fetch u (.ok (f u))) ∧
    (responseStatus (concatenate_advanced_api env (some (.obj fields)) genId
        fs).1 == some 400) = false := by
  rw [api_after_validation env fields urls filt genId fs hurls hne hfilt hfne]
  unfold pipelineCore
  rw [downloadLoop_all_ok env f urls [] fs hf]
  simp only [List.nil_append]
  constructor
  · obtain ⟨tail, htr⟩ := execStage_trace env (urls.map f) filt
      ((assocGet fields "job_id").getD (.str genId)) ((urls.map f).reverse ++ fs)
      (urls.map (fun u => Event.fetch u (.ok (f u))))
    rw [htr]
    have hlen : urls.length =
        (urls.map (fun u => Event.fetch u (.ok (f u)))).length := by
      rw [List.length_map]
    rw [hlen, List.take_left]
  · exact execStage_not_400 env (urls.map f) filt
      ((assocGet fields "job_id").getD (.str genId)) ((urls.map f).reverse ++ fs)
      (urls.map (fun u => Event.fetch u (.ok (f u))))

/-- A request whose `input_urls` elements are a number, `null`, and a nested
object, with a valid filter string. -/
def mixedFields : List (String × Json) :=
  [("input_urls", .arr [.num 3, .null, .obj [("a", .num 1)]]),
   ("filter_complex", .str "[0:v][outv]")]

/-- Witness for C10 at a concrete input: the request with number/null/object
elements passes validation and a download is attempted for each of the three
elements, in order. -/
theorem C10_elements_not_type_checked_witness :
    ((concatenate_advanced_api envBase (some (.obj mixedFields)) "gen"
        []).2.2).take 3 =
      [.fetch (.num 3) (.ok "/tmp/in_3"),
       .fetch .null (.ok "/tmp/in_None"),
       .fetch (.obj [("a", .num 1)]) (.ok "/tmp/in_\x7b\x27a\x27: 1\x7d")] ∧
    (responseStatus (concatenate_advanced_api envBase (some (.obj mixedFields))
        "gen" []).1 == some 400) = false := by
  have h := C10_elements_not_type_checked envBase mixedFields
    [.num 3, .null, .obj [("a", .num 1)]] "[0:v][outv]" "gen" [] demoFetch
    rfl (List.cons_ne_nil _ _) rfl (by decide) (fun u _ => rfl)
  refine ⟨?_, h.2⟩
  rw [show (3 : Nat) =
        [Json.num 3, Json.null, Json.obj [("a", Json.num 1)]].length from rfl,
      h.1]
  rfl

/-- The constructed vector, written as program name followed by the input
pairs followed by the filter pair, the fixed encoding arguments and the
output path. -/
theorem buildCommand_eq (ps : List String) (filt o : String) :
    buildCommand ps filt o =
      "ffmpeg" ::
        (inputArgs ps ++
          ("-filter_complex" :: filt :: (encodingArgs ++ [o]))) := by
  simp [buildCommand, List.cons_append]

theorem getElem?_append_length {α : Type} (l : List α) (a : α) (t : List α) :
    (l ++ a :: t)[l.length]? = some a := by
  rw [List.getElem?_append_right (Nat.le_refl _)]
  simp

/-- **C2.** For every valid request with `N` input references whose
downloads succeed, the tool is invoked (directly after the `N` fetches) with
an argument vector that starts with the program name, then contains exactly
`N` `-i <path>` pairs — the `k`-th pair holding the local path of the `k`-th
reference — all before the filter-graph argument (the caller's
`filter_complex` verbatim), which comes before the fixed output/encoding
arguments (`-map [outv] -map [outa] -c:v libx264 -crf 23 -preset medium
-c:a aac -b:a 128k -movflags +faststart`), and whose final argument is the
output path `<job_id>_advanced_concat_output.mp4` inside the scratch
directory. -/
theorem C2_command_structure (env : Env) (fields : List (String × Json))
    (urls : List Json) (filt : String) (genId : String) (fs : FS)
    (f : Json → String)
    (hurls : assocGet fields "input_urls" = some (.arr urls))
    (hne : urls ≠ [])
    (hfilt : assocGet fields "filter_complex" = some (.str filt))
    (hfne : filt ≠ "")
    (hf : ∀ u ∈ urls, env.fetch u = .ok (f u)) :
    ((concatenate_advanced_api env (some (.obj fields)) genId
        fs).2.2)[urls.length]? =
      some (.run (buildCommand (urls.map f) filt
        (outputFilepath (jobIdOf fields genId)))) ∧
    (buildCommand (urls.map f) filt
      (outputFilepath (jobIdOf fields genId)))[0]? = some "ffmpeg" ∧
    (List.range urls.length).all (fun k =>
      decide ((buildCommand (urls.map f) filt
          (outputFilepath (jobIdOf fields genId)))[2 * k + 1]? = some "-i")
        &&
      decide ((buildCommand (urls.map f) filt
          (outputFilepath (jobIdOf fields genId)))[2 * k + 2]? =
        (urls.map f)[k]?)) = true ∧
    (buildCommand (urls.map f) filt
      (outputFilepath (jobIdOf fields genId))).length =
        2 * urls.length + 20 ∧
    (buildCommand (urls.map f) filt
      (outputFilepath (jobIdOf fields genId))).drop (2 * urls.length + 1) =
      "-filter_complex" :: filt ::
        (encodingArgs ++ [outputFilepath (jobIdOf fields genId)]) ∧
    outputFilepath (jobIdOf fields genId) =
      osPathJoin LOCAL_STORAGE_PATH
        (pyStr (jobIdOf fields genId) ++ "_advanced_concat_output.mp4") := by
  have hlen : (urls.map f).length = urls.length := List.length_map urls f
  refine ⟨?_, ?_, ?_, ?_, ?_, ?_⟩
  · rw [api_after_validation env fields urls filt genId fs hurls hne hfilt
          hfne]
    unfold pipelineCore
    rw [downloadLoop_all_ok env f urls [] fs hf]
    simp only [List.nil_append]
    obtain ⟨tail, htr⟩ := execStage_trace env (urls.map f) filt
      ((assocGet fields "job_id").getD (.str genId))
      ((urls.map f).reverse ++ fs)
      (urls.map (fun u => Event.fetch u (.ok (f u))))
    rw [htr, show urls.length =
          (urls.map (fun u => Event.fetch u (.ok (f u)))).length from
          (List.length_map urls _).symm,
        getElem?_append_length]
    rfl
  · rw [buildCommand_eq]
    simp
  · rw [List.all_eq_true]
    intro k hk
    have hklt : k < urls.length := List.mem_range.mp hk
    have hklt' : k < (urls.map f).length := by rw [hlen]; exact hklt
    have hpair := inputArgs_append_get (urls.map f)
      ("-filter_complex" :: filt ::
        (encodingArgs ++ [outputFilepath (jobIdOf fields genId)])) k hklt'
    rw [Bool.and_eq_true, decide_eq_true_eq, decide_eq_true_eq]
    constructor
    · rw [buildCommand_eq, List.getElem?_cons_succ]
      exact hpair.1
    · rw [buildCommand_eq,
          show 2 * k + 2 = (2 * k + 1) + 1 by omega,
          List.getElem?_cons_succ]
      exact hpair.2
  · rw [buildCommand_eq]
    simp [inputArgs_length, encodingArgs, hlen]
  · rw [buildCommand_eq,
        show 2 * urls.length + 1 = (2 * (urls.map f).length) + 1 by
          rw [hlen],
        List.drop_succ_cons, inputArgs_append_drop]
  · rw [outputFilepath, String.append_assoc]
    rfl

/-- Witness for C2 at a concrete input: on the fully successful demo run the
third trace event is the tool invocation, whose argument vector is exactly
the expected one — two `-i` pairs in url order, then the filter graph, then
the fixed encoding arguments, then the output path derived from the supplied
job id. -/
theorem C2_command_structure_witness :
    ((concatenate_advanced_api envBase (some (.obj demoFields)) "gen"
        []).2.2)[2]? =
      some (.run ["ffmpeg", "-i", "/tmp/in_http://a/x.mp4",
        "-i", "/tmp/in_http://a/y.mp4",
        "-filter_complex", "[0:v][1:v]concat=n=2:v=1[outv]",
        "-map", "[outv]", "-map", "[outa]", "-c:v", "libx264", "-crf", "23",
        "-preset", "medium", "-c:a", "aac", "-b:a", "128k",
        "-movflags", "+faststart", "/tmp/J1_advanced_concat_output.mp4"]) := by
  have h := C2_command_structure envBase demoFields [urlX, urlY]
    "[0:v][1:v]concat=n=2:v=1[outv]" "gen" [] demoFetch
    rfl (List.cons_ne_nil _ _) rfl (by decide) (fun u _ => rfl)
  rw [show (2 : Nat) = [urlX, urlY].length from rfl, h.1]
  rfl

/-- The fetch (download) events of a trace, in order. -/
def fetchEvents (evs : List Event) : List Event :=
  evs.filter (fun e =>
    match e with
    | .fetch _ _ => true
    | _ => false)

/-- The post-download stage adds no fetch event: its additions to the trace
are the tool invocation and at most one upload. -/
theorem fetchEvents_execStage (env : Env) (paths : List String)
    (filt : String) (j : Json) (fs1 : FS) (evs : List Event) :
    fetchEvents (execStage env paths filt j fs1 evs).2.2 = fetchEvents evs := by
  simp only [execStage]
  cases htool : env.toolOk (buildCommand paths filt (outputFilepath j)) with
  | false => simp [htool, fetchEvents, List.filter_append]
  | true =>
    cases hex : osPathExists (outputFilepath j)
        (env.toolCreates (buildCommand paths filt (outputFilepath j))
          ++ fs1) with
    | false => simp [htool, hex, fetchEvents, List.filter_append]
    | true =>
      cases hup : env.upload (outputFilepath j) with
      | error e => simp [htool, hex, hup, fetchEvents, List.filter_append]
      | ok r => simp [htool, hex, hup, fetchEvents, List.filter_append]

/-- The fetch events of the post-validation stages do not depend on the job
identifier. -/
theorem fetchEvents_pipelineCore_jobId (env : Env) (urls : List Json)
    (filt : String) (jA jB : Json) (fs : FS) :
    fetchEvents (pipelineCore env urls filt jA fs).2.2 =
      fetchEvents (pipelineCore env urls filt jB fs).2.2 := by
  unfold pipelineCore
  rcases hdl : downloadLoop env urls [] fs with ⟨res, fs1, evs⟩
  cases res with
  | fail u cause acc => rfl
  | ok paths => rw [fetchEvents_execStage, fetchEvents_execStage]

/-- Collaborators whose fetcher stores every reference at one fixed local
path (a deterministic function of the reference and the scratch root only —
`download_file` receives no job identifier). -/
def envShared : Env := { envBase with fetch := fun _ => .ok "/tmp/shared.mp4" }

/-- A one-input request carrying job id `jobA`. -/
def fieldsJobA : List (String × Json) :=
  [("input_urls", .arr [urlX]),
   ("filter_complex", .str "[0:v]copy[outv]"),
   ("job_id", .str "jobA")]

/-- The same request carrying job id `jobB`. -/
def fieldsJobB : List (String × Json) :=
  [("input_urls", .arr [urlX]),
   ("filter_complex", .str "[0:v]copy[outv]"),
   ("job_id", .str "jobB")]

/-- Counterexample to **C8** as stated, in both of its parts.

Downloaded inputs: two jobs with distinct job ids (`jobA` ≠ `jobB`) both
store their downloaded input at the same local path `/tmp/shared.mp4` — the
downloaded-input temp filename is produced by `download_file` from the url
and the scratch root alone (the call site at line 74 passes no job
identifier), so it is not derived from the job's `job_id`.

Output file: even the output path, which is derived from `job_id`, can
collide across distinct job ids, because `os.path.join` discards the
scratch root when the joined name is absolute: job ids `x` and `/tmp/x`
both yield the output path `/tmp/x_advanced_concat_output.mp4`. -/
theorem C8_counterexample :
    (concatenate_advanced_api envShared (some (.obj fieldsJobA)) "g1"
        []).2.2.head? = some (.fetch urlX (.ok "/tmp/shared.mp4")) ∧
    (concatenate_advanced_api envShared (some (.obj fieldsJobB)) "g2"
        []).2.2.head? = some (.fetch urlX (.ok "/tmp/shared.mp4")) ∧
    ("jobA" : String) ≠ "jobB" ∧
    outputFilepath (.str "x") = outputFilepath (.str "/tmp/x") ∧
    ("x" : String) ≠ "/tmp/x" ∧
    outputFilepath (.str "x") = "/tmp/x_advanced_concat_output.mp4" :=
  ⟨rfl, rfl, by decide, rfl, by decide, rfl⟩

/-- **C8 (amended).** Only the produced output file's name is derived from
the job identifier, and even it identifies the job only conditionally:
when neither (string) job id renders an absolute joined name (its first
character is not `/`), distinct job ids yield distinct output paths — for an
absolute one, `os.path.join` discards the scratch root and e.g. job ids `x`
and `/tmp/x` collide.  The downloaded-input local paths are determined by
the Fetcher from the reference list alone — two runs over the same
references and filesystem produce identical download (fetch) traces
regardless of their job ids — so distinct job ids do not by themselves
prevent collisions among downloaded input paths. -/
theorem C8_output_path_only_amended (env : Env)
    (fieldsA fieldsB : List (String × Json)) (genIdA genIdB : String)
    (fs : FS) (j1 j2 : String)
    (hj : j1 ≠ j2)
    (h1 : j1.data.head? ≠ some '/')
    (h2 : j2.data.head? ≠ some '/')
    (hurls : assocGet fieldsA "input_urls" = assocGet fieldsB "input_urls")
    (hfilt : assocGet fieldsA "filter_complex"
      = assocGet fieldsB "filter_complex")
    (hemp : fieldsA.isEmpty = fieldsB.isEmpty) :
    outputFilepath (.str j1) ≠ outputFilepath (.str j2) ∧
    fetchEvents (concatenate_advanced_api env (some (.obj fieldsA)) genIdA
        fs).2.2 =
      fetchEvents (concatenate_advanced_api env (some (.obj fieldsB)) genIdB
        fs).2.2 := by
  constructor
  · intro h
    apply hj
    simp only [outputFilepath, osPathJoin, pyStr] at h
    have hd := congrArg String.data h
    simp [String.data_append, h1, h2] at hd
    exact String.ext hd
  · simp only [concatenate_advanced_api]
    rw [← hurls, ← hfilt]
    have hfalsy : (Json.obj fieldsB).falsy = (Json.obj fieldsA).falsy := by
      simp [Json.falsy, hemp]
    rw [hfalsy]
    cases h1 : (Json.obj fieldsA).falsy with
    | true => rfl
    | false =>
      simp only [h1, Bool.false_eq_true, if_false]
      cases h2 : (((assocGet fieldsA "input_urls").getD .null).falsy
          || !((assocGet fieldsA "input_urls").getD .null).isList
          || (((assocGet fieldsA "input_urls").getD .null).pyLen == 0)) with
      | true => rfl
      | false =>
        simp only [h2, Bool.false_eq_true, if_false]
        cases h3 : (((assocGet fieldsA "filter_complex").getD .null).falsy
            || !((assocGet fieldsA "filter_complex").getD .null).isStr) with
        | true => rfl
        | false =>
          simp only [h3, Bool.false_eq_true, if_false]
          exact fetchEvents_pipelineCore_jobId env _ _ _ _ fs

/-- Witness for the amended C8 at a concrete input: jobs `jobA` and `jobB`
(neither starting with `/`) have distinct output paths, yet their download
traces over the shared fetcher coincide (both store at `/tmp/shared.mp4`). -/
theorem C8_output_path_only_amended_witness :
    outputFilepath (.str "jobA") ≠ outputFilepath (.str "jobB") ∧
    fetchEvents (concatenate_advanced_api envShared (some (.obj fieldsJobA))
        "g1" []).2.2 =
      fetchEvents (concatenate_advanced_api envShared (some (.obj fieldsJobB))
        "g2" []).2.2 := by
  have h := C8_output_path_only_amended envShared fieldsJobA fieldsJobB
    "g1" "g2" [] "jobA" "jobB" (by decide) (by decide) (by decide) rfl rfl rfl
  exact ⟨h.1, h.2⟩

end ConcatAdvanced
